import Mathlib

/-!
Verification of the text-integrity engine of the Nookal formatting
investigation. Strings are modelled as lists of Unicode code points
(`List Nat`); bytes are `Nat` values below 256. Definitions follow the
TypeScript source of the repository; a few collaborators that the source
reaches through built-ins or that exist only in the specification are
modelled where marked.
-/

set_option maxRecDepth 8192

namespace Nookal

/-- Code points of a string literal. JavaScript strings are sequences of
UTF-16 code units; everywhere in this development the strings involved are
sequences of scalar values, which we identify with their code points. -/
def str (s : String) : List Nat := s.data.map Char.toNat

/-- Substring test, the semantics of the JavaScript String.includes method
at the code-point level. -/
def containsSub (s pat : List Nat) : Bool :=
  match s with
  | [] => pat.isEmpty
  | _ :: rest => pat.isPrefixOf s || containsSub rest pat

/-- A Unicode scalar value: a code point that is not a surrogate. -/
def Scalar (c : Nat) : Prop := c < 1114112 ∧ ¬(55296 ≤ c ∧ c ≤ 57343)

instance (c : Nat) : Decidable (Scalar c) := by unfold Scalar; infer_instance

/-- Every code point of the string is a scalar value (a well-formed
Unicode string). -/
def AllScalar (s : List Nat) : Prop := ∀ c ∈ s, Scalar c

instance (s : List Nat) : Decidable (AllScalar s) := by
  unfold AllScalar; infer_instance

/-- UTF-8 encoding of one code point, with the semantics of the
TextEncoder built-in used by the source: one to four bytes; an unpaired
surrogate is encoded as the replacement character U+FFFD, and the final
fallback (unreachable from a JavaScript string) also yields U+FFFD. -/
def utf8EncodeChar (c : Nat) : List Nat :=
  if c < 128 then [c]
  else if c < 2048 then [192 + c / 64, 128 + c % 64]
  else if 55296 ≤ c ∧ c ≤ 57343 then [239, 191, 189]
  else if c < 65536 then [224 + c / 4096, 128 + c / 64 % 64, 128 + c % 64]
  else if c < 1114112 then
    [240 + c / 262144, 128 + c / 4096 % 64, 128 + c / 64 % 64, 128 + c % 64]
  else [239, 191, 189]

/-- UTF-8 byte sequence of a string, as produced by
new TextEncoder().encode(text). -/
def utf8Encode (s : List Nat) : List Nat := s.flatMap utf8EncodeChar

/-- The utf8ToLatin1 function of src/test-reverse-encoding-headers.ts and
of the reverse-encoding test script: encode the text to UTF-8 bytes with
TextEncoder, then build a string by appending String.fromCharCode of each
byte in a loop. -/
def utf8ToLatin1 (text : List Nat) : List Nat :=
  (utf8Encode text).foldl (fun latin1 b => latin1 ++ [b]) []

/-- One step of strict UTF-8 decoding: the scalar value encoded by the
leading bytes of the list, with the remaining bytes; none on an empty
list or a truncated, overlong, surrogate or out-of-range sequence. -/
def utf8DecodeOne : List Nat → Option (Nat × List Nat)
  | [] => none
  | b :: rest =>
    if b < 128 then some (b, rest)
    else if b < 194 then none
    else if b < 224 then
      match rest with
      | b1 :: r =>
        if 128 ≤ b1 ∧ b1 < 192 then some ((b - 192) * 64 + (b1 - 128), r)
        else none
      | [] => none
    else if b < 240 then
      match rest with
      | b1 :: b2 :: r =>
        if 128 ≤ b1 ∧ b1 < 192 ∧ 128 ≤ b2 ∧ b2 < 192 then
          let c := (b - 224) * 4096 + (b1 - 128) * 64 + (b2 - 128)
          if 2048 ≤ c ∧ ¬(55296 ≤ c ∧ c ≤ 57343) then some (c, r) else none
        else none
      | _ => none
    else if b < 245 then
      match rest with
      | b1 :: b2 :: b3 :: r =>
        if 128 ≤ b1 ∧ b1 < 192 ∧ 128 ≤ b2 ∧ b2 < 192 ∧ 128 ≤ b3 ∧ b3 < 192 then
          let c := (b - 240) * 262144 + (b1 - 128) * 4096 + (b2 - 128) * 64 + (b3 - 128)
          if 65536 ≤ c ∧ c < 1114112 then some (c, r) else none
        else none
      | _ => none
    else none

/-- Decoding loop, with fuel bounding the number of decoded scalars; a
list of n bytes holds at most n scalars, so fuel equal to the byte count
is always enough. -/
def utf8DecodeGo : Nat → List Nat → Option (List Nat)
  | _, [] => some []
  | 0, _ :: _ => none
  | fuel + 1, b :: rest =>
    match utf8DecodeOne (b :: rest) with
    | some (c, rem) => (utf8DecodeGo fuel rem).map (fun t => c :: t)
    | none => none

/-- Modelled from the spec: the latin1CodepointsAsUtf8Bytes direction that
the source never writes out as a function (it is the reinterpretation the
remote store itself performs). Strict UTF-8 decoding of a byte sequence:
rejects truncated, overlong, surrogate and out-of-range forms. -/
def utf8Decode (l : List Nat) : Option (List Nat) := utf8DecodeGo l.length l

/-- Replacement loop: one character is consumed (or one occurrence of the
pattern is replaced) per fuel unit, so fuel equal to the subject's length
is always enough for a non-empty pattern. -/
def replaceAllGo (fuel : Nat) (s pat repl : List Nat) : List Nat :=
  match fuel with
  | 0 => s
  | fuel + 1 =>
    match s with
    | [] => []
    | c :: rest =>
      if pat.isPrefixOf (c :: rest) then
        repl ++ replaceAllGo fuel ((c :: rest).drop pat.length) pat repl
      else c :: replaceAllGo fuel rest pat repl

/-- The semantics of text.replace(new RegExp(escapeRegExp(lit), g), repl)
as used throughout unicode-strategies.ts: replace every non-overlapping
occurrence of the literal lit, scanning left to right. The table keys are
never empty, so the empty pattern is mapped to the identity. -/
def replaceAll (s pat repl : List Nat) : List Nat :=
  if pat.isEmpty then s else replaceAllGo s.length s pat repl

/-- Sequential application of a substitution table, the for-in loop over
Object.entries used by the strategy functions. -/
def applySubstitutions (table : List (List Nat × List Nat)) (s : List Nat) : List Nat :=
  table.foldl (fun result e => replaceAll result e.1 e.2) s

/-- The NOOKAL_SYMBOL_IMAGES table of src/src/unicode-strategies.ts:
symbol to base64 image data. -/
def NOOKAL_SYMBOL_IMAGES : List (List Nat × List Nat) := [
  (str "π", str "data:image/gif;base64,R0lGODdhDwAPAPIHAJCWmc7R0rq/wP///3B5fP7+/lpkaObo6CwAAAAADwAPAAADRDi63F1BiONWIAQATBkkQaEUAtENB2EIjgBYxuoU5qidDBBUjs57tUFBs9ktXAxBjCASlnA0A0aTwSlchYPEusj+vo4EADs="),
  (str "°", str "data:image/gif;base64,R0lGODdhCwAPAPEAANjb3KWqrFpkaP///ywAAAAACwAPAAACJZyPqSYtoYQBAiRpAkSYWu5s3OBlXydpBzYEzUI+iydfVgnnSQEAOw=="),
  (str "±", str "data:image/gif;base64,R0lGODdhDwAPAPEAAKCmqO7v8FpkaP///ywAAAAADwAPAAACI5yPqcvtGoAAwQF6nahBeK9ckWQIkESZg6qo7uN+7EPXNlMAADs="),
  (str "∞", str "data:image/gif;base64,R0lGODdhDwAPAPIHAOrs7LzAwenq6////+jq6m12em53erq+wCwAAAAADwAPAAADODi63A4GuAZNnAqece4zm9IJFNgcBZmZTpAqFjbEgza5xGIzeCMUgUXP8QsOJz9DIScbEAzMpiwBADs="),
  (str "♀", str "data:image/gif;base64,R0lGODlhEAAQAPIBAP///wAAAMLCwkJCQgAAAGJiYoKCgpKSkiH5BAkKAAQALAAAAAAQABAAAAM2SLrc/jDKSVe4OOvNu/9gqARDSYpkaZ5oqq5s275wLM90bd94Lu987//AoHBILBqPyKRyyWw6CwA7"),
  (str "♂", str "data:image/gif;base64,R0lGODlhEAAQAPIBAP///wAAAMLCwkJCQgAAAGJiYoKCgpKSkiH5BAkKAAQALAAAAAAQABAAAAM4SLrc/jDKSVe4OOvNu/9gqARDSYpkaZ5oqq5s275wLM90bd94Lu987//AoHBILFqPSJRyyWw6nwwAOw=="),
  (str "†", str "data:image/gif;base64,R0lGODlhEAAQAPIBAP///wAAAMLCwkJCQgAAAGJiYoKCgpKSkiH5BAkKAAQALAAAAAAQABAAAAM1SLrc/jDKSVe4OOvNu/9gqARDSYpkaZ5oqq5s275wLM90bd94ru987//AoHBILBqPyKRyyWwCADs=")]

/-- The SAFE_SUBSTITUTIONS table of src/src/unicode-strategies.ts, in
declaration order with the duplicated superscript-two and -three keys
listed once (object literal semantics). The first four keys are the smart
quotes U+201C, U+201D, U+2018, U+2019 mapping to the plain double quote
and apostrophe; the stored copies of the file have these smart quotes
flattened to the ASCII characters, which does not parse, so the intended
characters documented by the adjacent comment are used. -/
def SAFE_SUBSTITUTIONS : List (List Nat × List Nat) := [
  ([8220], [34]),
  ([8221], [34]),
  ([8216], [39]),
  ([8217], [39]),
  (str "—", str " - "),
  (str "–", str "-"),
  (str "°", str " degrees"),
  (str "±", str "+/-"),
  (str "≤", str "<="),
  (str "≥", str ">="),
  (str "≠", str "!="),
  (str "∞", str "infinity"),
  (str "π", str "pi"),
  (str "√", str "sqrt"),
  (str "²", str "^2"),
  (str "³", str "^3"),
  (str "½", str "1/2"),
  (str "¼", str "1/4"),
  (str "¾", str "3/4"),
  (str "€", str "EUR"),
  (str "£", str "GBP"),
  (str "¢", str "cents"),
  (str "¥", str "JPY"),
  (str "•", str "* "),
  (str "◦", str "- "),
  (str "▪", str "- "),
  (str "▫", str "- "),
  (str "‣", str "> "),
  (str "℃", str "C"),
  (str "℉", str "F"),
  (str "μ", str "micro"),
  (str "α", str "alpha"),
  (str "β", str "beta"),
  (str "γ", str "gamma"),
  (str "δ", str "delta"),
  (str "Ω", str "ohm"),
  (str "₀", str "0"),
  (str "₁", str "1"),
  (str "₂", str "2"),
  (str "₃", str "3"),
  (str "₄", str "4"),
  (str "₅", str "5"),
  (str "₆", str "6"),
  (str "₇", str "7"),
  (str "₈", str "8"),
  (str "₉", str "9"),
  (str "⁰", str "^0"),
  (str "¹", str "^1"),
  (str "⁴", str "^4"),
  (str "⁵", str "^5"),
  (str "⁶", str "^6"),
  (str "⁷", str "^7"),
  (str "⁸", str "^8"),
  (str "⁹", str "^9"),
  (str "á", str "a"),
  (str "à", str "a"),
  (str "ä", str "a"),
  (str "â", str "a"),
  (str "ã", str "a"),
  (str "å", str "a"),
  (str "é", str "e"),
  (str "è", str "e"),
  (str "ë", str "e"),
  (str "ê", str "e"),
  (str "í", str "i"),
  (str "ì", str "i"),
  (str "ï", str "i"),
  (str "î", str "i"),
  (str "ó", str "o"),
  (str "ò", str "o"),
  (str "ö", str "o"),
  (str "ô", str "o"),
  (str "õ", str "o"),
  (str "ø", str "o"),
  (str "ú", str "u"),
  (str "ù", str "u"),
  (str "ü", str "u"),
  (str "û", str "u"),
  (str "ý", str "y"),
  (str "ÿ", str "y"),
  (str "ñ", str "n"),
  (str "ç", str "c"),
  (str "Á", str "A"),
  (str "À", str "A"),
  (str "Ä", str "A"),
  (str "Â", str "A"),
  (str "Ã", str "A"),
  (str "Å", str "A"),
  (str "É", str "E"),
  (str "È", str "E"),
  (str "Ë", str "E"),
  (str "Ê", str "E"),
  (str "Í", str "I"),
  (str "Ì", str "I"),
  (str "Ï", str "I"),
  (str "Î", str "I"),
  (str "Ó", str "O"),
  (str "Ò", str "O"),
  (str "Ö", str "O"),
  (str "Ô", str "O"),
  (str "Õ", str "O"),
  (str "Ø", str "O"),
  (str "Ú", str "U"),
  (str "Ù", str "U"),
  (str "Ü", str "U"),
  (str "Û", str "U"),
  (str "Ý", str "Y"),
  (str "Ÿ", str "Y"),
  (str "Ñ", str "N"),
  (str "Ç", str "C")]

/-- The CORRUPTION_FIXES table of src/src/unicode-strategies.ts: observed
mojibake to the intended character. The dash and quote entries carry the
cp1252 readings of the corrupted bytes and the smart-quote values that the
stored copies flattened to ASCII quotes. -/
def CORRUPTION_FIXES : List (List Nat × List Nat) := [
  (str "CafÃ©", str "Café"),
  (str "JosÃ©", str "José"),
  (str "naÃ¯ve", str "naïve"),
  (str "FranÃ§ois", str "François"),
  (str "MÃ¼ller", str "Müller"),
  (str "rÃ©sumÃ©", str "résumé"),
  (str "Â°", str "°"),
  (str "Â±", str "±"),
  (str "â€¢", str "•"),
  ([226, 8364, 8221], str "—"),
  ([226, 8364, 8220], str "–"),
  (str "â‚¬", str "€"),
  (str "Oâ‚‚", str "O₂"),
  (str "COâ‚‚", str "CO₂"),
  (str "H₂O", str "H₂O"),
  ([226, 8364, 339], [8220]),
  ([226, 8364], [8221]),
  ([226, 8364, 8482], [8217]),
  ([226, 8364, 732], [8216])]

/-- The image tag that convertSymbolsToImages builds for one symbol. -/
def imgTag (imageData symbol : List Nat) : List Nat :=
  str "<img src=\"" ++ imageData ++ str "\" alt=\"" ++ symbol ++ str "\" />"

/-- Strategy A of unicode-strategies.ts: replace each mapped symbol by a
Nookal-style inline base64 image tag. -/
def convertSymbolsToImages (text : List Nat) : List Nat :=
  NOOKAL_SYMBOL_IMAGES.foldl (fun result e => replaceAll result e.1 (imgTag e.2 e.1)) text

/-- Finite model of the String normalize NFKD built-in used by
sanitiseUnicodeForNookal: canonical decompositions of the Latin-1 letters
and the compatibility decompositions of the digit-like characters the
investigation exercises; identity on every other code point. -/
def nfkdDecomp : List (Nat × List Nat) := [
  (192, [65, 768]), (193, [65, 769]), (194, [65, 770]), (195, [65, 771]),
  (196, [65, 776]), (197, [65, 778]), (199, [67, 807]),
  (200, [69, 768]), (201, [69, 769]), (202, [69, 770]), (203, [69, 776]),
  (204, [73, 768]), (205, [73, 769]), (206, [73, 770]), (207, [73, 776]),
  (209, [78, 771]),
  (210, [79, 768]), (211, [79, 769]), (212, [79, 770]), (213, [79, 771]), (214, [79, 776]),
  (217, [85, 768]), (218, [85, 769]), (219, [85, 770]), (220, [85, 776]),
  (221, [89, 769]),
  (224, [97, 768]), (225, [97, 769]), (226, [97, 770]), (227, [97, 771]),
  (228, [97, 776]), (229, [97, 778]), (231, [99, 807]),
  (232, [101, 768]), (233, [101, 769]), (234, [101, 770]), (235, [101, 776]),
  (236, [105, 768]), (237, [105, 769]), (238, [105, 770]), (239, [105, 776]),
  (241, [110, 771]),
  (242, [111, 768]), (243, [111, 769]), (244, [111, 770]), (245, [111, 771]), (246, [111, 776]),
  (249, [117, 768]), (250, [117, 769]), (251, [117, 770]), (252, [117, 776]),
  (253, [121, 769]), (255, [121, 776]), (376, [89, 776]),
  (178, [50]), (179, [51]), (185, [49]),
  (188, [49, 8260, 52]), (189, [49, 8260, 50]), (190, [51, 8260, 52]),
  (8320, [48]), (8321, [49]), (8322, [50]), (8323, [51]), (8324, [52]),
  (8325, [53]), (8326, [54]), (8327, [55]), (8328, [56]), (8329, [57]),
  (8304, [48]), (8308, [52]), (8309, [53]), (8310, [54]), (8311, [55]),
  (8312, [56]), (8313, [57]),
  (8451, [176, 67]), (8457, [176, 70])]

/-- NFKD decomposition of one code point under the finite model. -/
def nfkdChar (c : Nat) : List Nat :=
  match nfkdDecomp.find? (fun e => e.1 == c) with
  | some e => e.2
  | none => [c]

/-- NFKD normalisation of a string under the finite model. -/
def nfkd (s : List Nat) : List Nat := s.flatMap nfkdChar

/-- Strategy B of unicode-strategies.ts: apply the safe substitutions,
normalise with NFKD, strip the combining diacritics U+0300 to U+036F, and
replace every remaining non-ASCII code point with a question mark. -/
def sanitiseUnicodeForNookal (text : List Nat) : List Nat :=
  let result := applySubstitutions SAFE_SUBSTITUTIONS text
  let result := nfkd result
  let result := result.filter (fun c => !(768 ≤ c && c ≤ 879))
  result.map (fun c => if c ≤ 127 then c else 63)

/-- Strategy C of unicode-strategies.ts: rewrite known corrupted
substrings back to their intended characters. -/
def fixCorruptedText (text : List Nat) : List Nat :=
  applySubstitutions CORRUPTION_FIXES text

/-- The smart-quote characters the hybrid strategy leaves untouched
(workingChars in unicode-strategies.ts, flattened to ASCII quotes in the
stored copies). -/
def workingChars : List (List Nat) := [[8220], [8221], [8216], [8217]]

/-- One step of the hybrid strategy loop: skip an entry whose key is a
working character, otherwise apply the substitution. -/
def hybridStep (result : List Nat) (e : List Nat × List Nat) : List Nat :=
  if workingChars.contains e.1 then result else replaceAll result e.1 e.2

/-- The hybrid strategy of unicode-strategies.ts: apply every safe
substitution except those whose key is a working smart quote. -/
def hybridUnicodeStrategy (text : List Nat) : List Nat :=
  SAFE_SUBSTITUTIONS.foldl hybridStep text

/-- Result record of analyseCorruption in src/src/unicode-strategies.ts. -/
structure CorruptionAnalysis where
  isCorrupted : Bool
  corruptionType : String
  suggestions : List String
deriving DecidableEq, Repr

/-- The analyseCorruption function of src/src/unicode-strategies.ts. The
checks run in sequence and each matching check overwrites corruptionType,
while suggestions accumulate; the final length check only adds a
suggestion. The string literals are the intended clean characters; the
copy of the module stored under src/src is itself a Mac-Roman
double-encoding of the same text. -/
def analyseCorruption (original retrieved : List Nat) : CorruptionAnalysis :=
  if original = retrieved then
    { isCorrupted := false, corruptionType := "none", suggestions := [] }
  else
    let hitUtf8 := containsSub retrieved (str "Ã")
    let t1 := if hitUtf8 then "utf8-double-encoding" else "unknown"
    let s1 : List String :=
      if hitUtf8 then
        ["Use sanitiseUnicodeForNookal() before sending",
         "Apply fixCorruptedText() after retrieving"]
      else []
    let hitSym := containsSub retrieved (str "Â") || containsSub retrieved (str "â€")
    let t2 := if hitSym then "symbol-corruption" else t1
    let s2 := if hitSym then s1 ++ ["Use hybridUnicodeStrategy() or convertSymbolsToImages()"] else s1
    let hitEnt := containsSub retrieved (str "&lt;") || containsSub retrieved (str "&amp;")
    let t3 := if hitEnt then "html-entities" else t2
    let s3 := if hitEnt then s2 ++ ["HTML entities detected - server is encoding HTML"] else s2
    let s4 := if retrieved.length ≠ original.length then s3 ++ ["Character length mismatch detected"] else s3
    { isCorrupted := true, corruptionType := t3, suggestions := s4 }

/-- Per-case verdict of the reverse-encoding test loop in the
testReverseEncoding script: exact match is perfect, absence of the three
corruption marker substrings is an improvement, anything else is still
corrupted. -/
inductive ReverseOutcome where
  | perfect
  | improved
  | stillCorrupted
deriving DecidableEq, Repr

/-- The verdict computed for one test case by the reverse-encoding test
loop (testReverseEncoding), comparing the retrieved note content with the
case's original text. -/
def reverseTestVerdict (original retrieved : List Nat) : ReverseOutcome :=
  if retrieved = original then .perfect
  else if !containsSub retrieved (str "Ã") && !containsSub retrieved (str "â€")
          && !containsSub retrieved (str "Â") then .improved
  else .stillCorrupted

theorem foldl_append_eq (l acc : List Nat) :
    l.foldl (fun a b => a ++ [b]) acc = acc ++ l := by
  induction l generalizing acc with
  | nil => simp
  | cons b t ih => simp [List.foldl_cons, ih]

theorem utf8ToLatin1_eq_utf8Encode (s : List Nat) :
    utf8ToLatin1 s = utf8Encode s := by
  unfold utf8ToLatin1
  simp [foldl_append_eq]

theorem utf8DecodeOne_encodeChar (c : Nat) (h : Scalar c) (rest : List Nat) :
    utf8DecodeOne (utf8EncodeChar c ++ rest) = some (c, rest) := by
  have hlt : c < 1114112 := h.1
  have hsur : ¬(55296 ≤ c ∧ c ≤ 57343) := h.2
  unfold utf8EncodeChar
  by_cases h1 : c < 128
  · rw [if_pos h1]
    simp only [List.cons_append, List.nil_append, utf8DecodeOne, if_pos h1]
  rw [if_neg h1]
  by_cases h2 : c < 2048
  · rw [if_pos h2]
    simp only [List.cons_append, List.nil_append, utf8DecodeOne]
    rw [if_neg (by omega : ¬(192 + c / 64 < 128)), if_neg (by omega : ¬(192 + c / 64 < 194)),
      if_pos (by omega : 192 + c / 64 < 224),
      if_pos (by omega : 128 ≤ 128 + c % 64 ∧ 128 + c % 64 < 192)]
    have hv : (192 + c / 64 - 192) * 64 + (128 + c % 64 - 128) = c := by omega
    rw [hv]
  rw [if_neg h2, if_neg hsur]
  by_cases h3 : c < 65536
  · rw [if_pos h3]
    simp only [List.cons_append, List.nil_append, utf8DecodeOne]
    rw [if_neg (by omega : ¬(224 + c / 4096 < 128)), if_neg (by omega : ¬(224 + c / 4096 < 194)),
      if_neg (by omega : ¬(224 + c / 4096 < 224)), if_pos (by omega : 224 + c / 4096 < 240),
      if_pos (by omega : 128 ≤ 128 + c / 64 % 64 ∧ 128 + c / 64 % 64 < 192 ∧
        128 ≤ 128 + c % 64 ∧ 128 + c % 64 < 192)]
    have hv : (224 + c / 4096 - 224) * 4096 + (128 + c / 64 % 64 - 128) * 64 +
        (128 + c % 64 - 128) = c := by omega
    simp only [hv]
    rw [if_pos (by constructor <;> omega)]
  rw [if_neg h3, if_pos hlt]
  simp only [List.cons_append, List.nil_append, utf8DecodeOne]
  rw [if_neg (by omega : ¬(240 + c / 262144 < 128)), if_neg (by omega : ¬(240 + c / 262144 < 194)),
    if_neg (by omega : ¬(240 + c / 262144 < 224)), if_neg (by omega : ¬(240 + c / 262144 < 240)),
    if_pos (by omega : 240 + c / 262144 < 245),
    if_pos (by omega : 128 ≤ 128 + c / 4096 % 64 ∧ 128 + c / 4096 % 64 < 192 ∧
      128 ≤ 128 + c / 64 % 64 ∧ 128 + c / 64 % 64 < 192 ∧
      128 ≤ 128 + c % 64 ∧ 128 + c % 64 < 192)]
  have hv : (240 + c / 262144 - 240) * 262144 + (128 + c / 4096 % 64 - 128) * 4096 +
      (128 + c / 64 % 64 - 128) * 64 + (128 + c % 64 - 128) = c := by omega
  simp only [hv]
  rw [if_pos (by constructor <;> omega)]

theorem utf8EncodeChar_ne_nil (c : Nat) : utf8EncodeChar c ≠ [] := by
  unfold utf8EncodeChar
  split_ifs <;> simp

theorem utf8DecodeGo_nil (fuel : Nat) : utf8DecodeGo fuel [] = some [] := by
  cases fuel <;> rfl

theorem utf8DecodeGo_cons (fuel : Nat) (b : Nat) (rest : List Nat) :
    utf8DecodeGo (fuel + 1) (b :: rest) =
      match utf8DecodeOne (b :: rest) with
      | some (c, rem) => (utf8DecodeGo fuel rem).map (fun t => c :: t)
      | none => none := rfl

theorem utf8DecodeGo_encode (s : List Nat) (h : AllScalar s) :
    ∀ fuel, (utf8Encode s).length ≤ fuel → utf8DecodeGo fuel (utf8Encode s) = some s := by
  induction s with
  | nil => intro fuel _; exact utf8DecodeGo_nil fuel
  | cons c t ih =>
    intro fuel hfuel
    have hc : Scalar c := h c (List.mem_cons_self c t)
    have ht : AllScalar t := fun x hx => h x (List.mem_cons_of_mem c hx)
    have henc : utf8Encode (c :: t) = utf8EncodeChar c ++ utf8Encode t := rfl
    obtain ⟨b, l, hb⟩ : ∃ b l, utf8EncodeChar c = b :: l := by
      cases hcase : utf8EncodeChar c with
      | nil => exact absurd hcase (utf8EncodeChar_ne_nil c)
      | cons b l => exact ⟨b, l, rfl⟩
    have hlen1 : 1 ≤ (utf8EncodeChar c).length := by rw [hb]; simp
    have hlen : (utf8Encode (c :: t)).length = (utf8EncodeChar c).length + (utf8Encode t).length := by
      rw [henc, List.length_append]
    obtain ⟨f, rfl⟩ : ∃ f, fuel = f + 1 := by
      cases fuel with
      | zero => omega
      | succ f => exact ⟨f, rfl⟩
    have hshape : utf8Encode (c :: t) = b :: (l ++ utf8Encode t) := by
      rw [henc, hb, List.cons_append]
    rw [hshape, utf8DecodeGo_cons]
    have hone : utf8DecodeOne (b :: (l ++ utf8Encode t)) = some (c, utf8Encode t) := by
      rw [← List.cons_append, ← hb]
      exact utf8DecodeOne_encodeChar c hc (utf8Encode t)
    rw [hone]
    have hrec : utf8DecodeGo f (utf8Encode t) = some t := ih ht f (by omega)
    show (utf8DecodeGo f (utf8Encode t)).map (fun x => c :: x) = some (c :: t)
    rw [hrec]
    rfl

theorem utf8Decode_utf8Encode (s : List Nat) (h : AllScalar s) :
    utf8Decode (utf8Encode s) = some s :=
  utf8DecodeGo_encode s h _ le_rfl

/-- C1: utf8BytesAsLatin1 (the source's utf8ToLatin1) maps every string to
the string whose code points are exactly the bytes of its UTF-8 encoding,
and in particular sends the string café to the string cafÃ©. -/
theorem utf8ToLatin1_bytes_as_codepoints :
    (∀ s, utf8ToLatin1 s = utf8Encode s) ∧ utf8ToLatin1 (str "café") = str "cafÃ©" := by
  refine ⟨utf8ToLatin1_eq_utf8Encode, ?_⟩
  decide

/-- C5: classifying the pair (café, utf8BytesAsLatin1 café), that is
(café, cafÃ©), reports corruption of kind utf8-double-encoding. -/
theorem analyseCorruption_detects_double_encoding :
    utf8ToLatin1 (str "café") = str "cafÃ©" ∧
    (analyseCorruption (str "café") (utf8ToLatin1 (str "café"))).isCorrupted = true ∧
    (analyseCorruption (str "café") (utf8ToLatin1 (str "café"))).corruptionType
      = "utf8-double-encoding" := by
  decide

/-- C6: classifying identical strings reports no corruption: corruption
type none and an empty suggestion list, for every string. -/
theorem analyseCorruption_exact_match (s : List Nat) :
    analyseCorruption s s =
      { isCorrupted := false, corruptionType := "none", suggestions := [] } := by
  simp [analyseCorruption]

/-- C2, counterexample: for original &amp;é and observed
utf8BytesAsLatin1(&amp;é) = &amp;Ã©, both the whole-string
double-encoding signature (the observed string is exactly the UTF-8 bytes
of the original read as code points, and it contains Ã) and the
HTML-entity signature (it contains &amp;) hold, yet analyseCorruption
reports html-entities, not utf8-double-encoding. -/
theorem analyseCorruption_priority_counterexample :
    utf8ToLatin1 (str "&amp;é") = str "&amp;Ã©" ∧
    utf8ToLatin1 (str "&amp;é") ≠ str "&amp;é" ∧
    containsSub (utf8ToLatin1 (str "&amp;é")) (str "Ã") = true ∧
    containsSub (utf8ToLatin1 (str "&amp;é")) (str "&amp;") = true ∧
    (analyseCorruption (str "&amp;é") (utf8ToLatin1 (str "&amp;é"))).corruptionType
      = "html-entities" ∧
    (analyseCorruption (str "&amp;é") (utf8ToLatin1 (str "&amp;é"))).corruptionType
      ≠ "utf8-double-encoding" := by
  decide

/-- C2, amended: the classifier's checks are sequential assignments and a
later matching check overwrites an earlier one, so whenever the observed
string differs from the original and carries the HTML-entity signature
(contains &lt; or &amp;), analyseCorruption reports html-entities — even
when the double-encoding signature holds as well (last match wins, the
reverse of the priority the claim states). -/
theorem analyseCorruption_entity_overrides (o r : List Nat) (hne : r ≠ o)
    (hent : (containsSub r (str "&lt;") || containsSub r (str "&amp;")) = true) :
    (analyseCorruption o r).isCorrupted = true ∧
    (analyseCorruption o r).corruptionType = "html-entities" := by
  unfold analyseCorruption
  rw [if_neg (fun h => hne h.symm)]
  simp [hent]

/-- Instance of the amended C2 at a concrete input: original <b>, observed
&lt;b&gt;. -/
theorem analyseCorruption_entity_overrides_witness :
    str "&lt;b&gt;" ≠ str "<b>" ∧
    (containsSub (str "&lt;b&gt;") (str "&lt;") || containsSub (str "&lt;b&gt;") (str "&amp;")) = true ∧
    ((analyseCorruption (str "<b>") (str "&lt;b&gt;")).isCorrupted = true ∧
     (analyseCorruption (str "<b>") (str "&lt;b&gt;")).corruptionType = "html-entities") :=
  ⟨by decide, by decide,
   analyseCorruption_entity_overrides (str "<b>") (str "&lt;b&gt;") (by decide) (by decide)⟩

/-- C3, counterexample: pre-encoding café with utf8ToLatin1 and passing it
through a mock store that applies utf8BytesAsLatin1 to the submitted
payload does not restore café: applying utf8ToLatin1 twice is not the
identity, and the reverse-encoding test loop classifies the result as
still corrupted, not as a perfect match. -/
theorem reverseEncoding_double_apply_counterexample :
    utf8ToLatin1 (utf8ToLatin1 (str "café")) ≠ str "café" ∧
    utf8ToLatin1 (utf8ToLatin1 (str "café")) = [99, 97, 102, 195, 131, 194, 169] ∧
    reverseTestVerdict (str "café") (utf8ToLatin1 (utf8ToLatin1 (str "café")))
      = ReverseOutcome.stillCorrupted := by
  decide

/-- C3, amended: the cancellation holds in the opposite pairing. For every
well-formed Unicode string, a mock store whose fetch reinterprets the
submitted payload's code points as UTF-8 bytes (the
latin1CodepointsAsUtf8Bytes direction) composed after the utf8ToLatin1
pre-encoding is the identity, and the reverse-encoding test loop then
reports a perfect match. -/
theorem reverseEncoding_cancelled_by_utf8_reinterpretation (s : List Nat) (h : AllScalar s) :
    ∃ fetched, utf8Decode (utf8ToLatin1 s) = some fetched ∧
      reverseTestVerdict s fetched = ReverseOutcome.perfect := by
  refine ⟨s, ?_, ?_⟩
  · rw [utf8ToLatin1_eq_utf8Encode]
    exact utf8Decode_utf8Encode s h
  · simp [reverseTestVerdict]

/-- Instance of the amended C3 at café. -/
theorem reverseEncoding_cancelled_witness :
    AllScalar (str "café") ∧
    ∃ fetched, utf8Decode (utf8ToLatin1 (str "café")) = some fetched ∧
      reverseTestVerdict (str "café") fetched = ReverseOutcome.perfect :=
  ⟨by decide, reverseEncoding_cancelled_by_utf8_reinterpretation (str "café") (by decide)⟩

theorem mem_replaceAllGo {c : Nat} :
    ∀ (fuel : Nat) (s pat repl : List Nat), c ∈ replaceAllGo fuel s pat repl → c ∈ s ∨ c ∈ repl := by
  intro fuel
  induction fuel with
  | zero => intro s pat repl h; exact Or.inl h
  | succ f ih =>
    intro s pat repl h
    cases s with
    | nil => simp [replaceAllGo] at h
    | cons a rest =>
      simp only [replaceAllGo] at h
      by_cases hp : pat.isPrefixOf (a :: rest)
      · rw [if_pos hp, List.mem_append] at h
        rcases h with h | h
        · exact Or.inr h
        · rcases ih _ _ _ h with h1 | h1
          · exact Or.inl (List.drop_subset _ _ h1)
          · exact Or.inr h1
      · rw [if_neg hp, List.mem_cons] at h
        rcases h with rfl | h
        · exact Or.inl (List.mem_cons_self _ _)
        · rcases ih _ _ _ h with h1 | h1
          · exact Or.inl (List.mem_cons_of_mem _ h1)
          · exact Or.inr h1

theorem mem_replaceAll {c : Nat} (s pat repl : List Nat) :
    c ∈ replaceAll s pat repl → c ∈ s ∨ c ∈ repl := by
  intro h
  unfold replaceAll at h
  by_cases he : pat.isEmpty
  · rw [if_pos he] at h; exact Or.inl h
  · rw [if_neg he] at h; exact mem_replaceAllGo _ _ _ _ h

theorem mem_foldl_step {β : Type} (P : β → Nat → Prop) (step : List Nat → β → List Nat)
    (hstep : ∀ acc e c, c ∈ step acc e → c ∈ acc ∨ P e c) :
    ∀ (l : List β) (acc : List Nat) (c : Nat),
      c ∈ l.foldl step acc → c ∈ acc ∨ ∃ e ∈ l, P e c := by
  intro l
  induction l with
  | nil => intro acc c h; exact Or.inl h
  | cons e tl ih =>
    intro acc c h
    rcases ih (step acc e) c h with h1 | ⟨x, hx, hp⟩
    · rcases hstep acc e c h1 with h2 | h2
      · exact Or.inl h2
      · exact Or.inr ⟨e, List.mem_cons_self e tl, h2⟩
    · exact Or.inr ⟨x, List.mem_cons_of_mem e hx, hp⟩

theorem mem_applySubstitutions (table : List (List Nat × List Nat)) (s : List Nat) (c : Nat) :
    c ∈ applySubstitutions table s → c ∈ s ∨ ∃ e ∈ table, c ∈ e.2 := by
  intro h
  unfold applySubstitutions at h
  exact mem_foldl_step (fun e c => c ∈ e.2) (fun result e => replaceAll result e.1 e.2)
    (fun acc e x hx => mem_replaceAll acc e.1 e.2 hx) table s c h

theorem mem_convertSymbolsToImages (s : List Nat) (c : Nat) :
    c ∈ convertSymbolsToImages s → c ∈ s ∨ ∃ e ∈ NOOKAL_SYMBOL_IMAGES, c ∈ imgTag e.2 e.1 := by
  intro h
  unfold convertSymbolsToImages at h
  exact mem_foldl_step (fun e c => c ∈ imgTag e.2 e.1)
    (fun result e => replaceAll result e.1 (imgTag e.2 e.1))
    (fun acc e x hx => mem_replaceAll acc e.1 (imgTag e.2 e.1) hx) NOOKAL_SYMBOL_IMAGES s c h

theorem mem_hybridStep (acc : List Nat) (e : List Nat × List Nat) (x : Nat)
    (hx : x ∈ hybridStep acc e) : x ∈ acc ∨ x ∈ e.2 := by
  unfold hybridStep at hx
  by_cases hw : workingChars.contains e.1
  · rw [if_pos hw] at hx; exact Or.inl hx
  · rw [if_neg hw] at hx; exact mem_replaceAll acc e.1 e.2 hx

theorem mem_hybridUnicodeStrategy (s : List Nat) (c : Nat) :
    c ∈ hybridUnicodeStrategy s → c ∈ s ∨ ∃ e ∈ SAFE_SUBSTITUTIONS, c ∈ e.2 := by
  intro h
  unfold hybridUnicodeStrategy at h
  exact mem_foldl_step (fun e c => c ∈ e.2) hybridStep mem_hybridStep SAFE_SUBSTITUTIONS s c h

/-- C10: whatever the input, every code point that
sanitiseUnicodeForNookal returns lies in the ASCII range: the final
replacement step maps any remaining non-ASCII code point to the question
mark, so the output is pure ASCII. -/
theorem sanitiseUnicodeForNookal_ascii (s : List Nat) :
    ∀ c ∈ sanitiseUnicodeForNookal s, c ≤ 127 := by
  intro c hc
  simp only [sanitiseUnicodeForNookal] at hc
  rw [List.mem_map] at hc
  obtain ⟨a, _, hfa⟩ := hc
  subst hfa
  split_ifs <;> omega

/-- Instance of C10 at a concrete input: the letter c of the sanitised
café is ASCII. -/
theorem sanitiseUnicodeForNookal_ascii_witness :
    99 ∈ sanitiseUnicodeForNookal (str "café") ∧ 99 ≤ 127 :=
  ⟨by decide, sanitiseUnicodeForNookal_ascii (str "café") 99 (by decide)⟩

theorem utf8EncodeChar_lt_256 (c b : Nat) (hb : b ∈ utf8EncodeChar c) : b < 256 := by
  unfold utf8EncodeChar at hb
  split_ifs at hb <;> simp at hb <;> omega

/-- C9: the five strategy transforms are total over well-formed Unicode
strings: on scalar input each returns a well-formed string (for
utf8ToLatin1, a string of Latin-1 range code points) and none has an
error case. -/
theorem strategy_functions_total (s : List Nat) (h : AllScalar s) :
    AllScalar (convertSymbolsToImages s) ∧ AllScalar (sanitiseUnicodeForNookal s) ∧
    AllScalar (hybridUnicodeStrategy s) ∧ AllScalar (fixCorruptedText s) ∧
    ∀ b ∈ utf8ToLatin1 s, b < 256 := by
  refine ⟨?_, ?_, ?_, ?_, ?_⟩
  · intro c hc
    rcases mem_convertSymbolsToImages s c hc with h1 | ⟨e, he, hp⟩
    · exact h c h1
    · have himg : ∀ e ∈ NOOKAL_SYMBOL_IMAGES, AllScalar (imgTag e.2 e.1) := by decide
      exact himg e he c hp
  · intro c hc
    have := sanitiseUnicodeForNookal_ascii s c hc
    exact ⟨by omega, by omega⟩
  · intro c hc
    rcases mem_hybridUnicodeStrategy s c hc with h1 | ⟨e, he, hp⟩
    · exact h c h1
    · have hv : ∀ e ∈ SAFE_SUBSTITUTIONS, AllScalar e.2 := by decide
      exact hv e he c hp
  · intro c hc
    rcases mem_applySubstitutions CORRUPTION_FIXES s c hc with h1 | ⟨e, he, hp⟩
    · exact h c h1
    · have hv : ∀ e ∈ CORRUPTION_FIXES, AllScalar e.2 := by decide
      exact hv e he c hp
  · intro b hb
    rw [utf8ToLatin1_eq_utf8Encode] at hb
    rw [show utf8Encode s = s.flatMap utf8EncodeChar from rfl, List.mem_flatMap] at hb
    obtain ⟨x, _, hbx⟩ := hb
    exact utf8EncodeChar_lt_256 x b hbx

/-- Hexadecimal digit character, lowercase, as produced by the JavaScript
Number toString with radix 16. -/
def hexDigitChar (d : Nat) : Nat := if d < 10 then 48 + d else 87 + d

/-- The textToUtf16Hex function of the UTF-16 encoding test script: one
backslash-u escape per UTF-16 code unit, the unit's hexadecimal digits
padded to four with leading zeros (code.toString(16).padStart(4, "0"));
for units below 0x10000 this is exactly the four nibbles. Strings are
taken here as their UTF-16 code unit sequences. -/
def textToUtf16Hex (text : List Nat) : List Nat :=
  text.flatMap (fun code =>
    [92, 117, hexDigitChar (code / 4096 % 16), hexDigitChar (code / 256 % 16),
     hexDigitChar (code / 16 % 16), hexDigitChar (code % 16)])

/-- Value of a hexadecimal digit character, upper or lower case. -/
def hexVal (c : Nat) : Option Nat :=
  if 48 ≤ c ∧ c ≤ 57 then some (c - 48)
  else if 97 ≤ c ∧ c ≤ 102 then some (c - 87)
  else if 65 ≤ c ∧ c ≤ 70 then some (c - 55)
  else none

/-- Modelled from the spec: fromUtf16LEEscapes, the reverse reading of the
hex-escape representation; some only when the whole string is a sequence
of backslash-u escapes. -/
def fromUtf16LEEscapes : List Nat → Option (List Nat)
  | [] => some []
  | 92 :: 117 :: a :: b :: c :: d :: rest =>
    match hexVal a, hexVal b, hexVal c, hexVal d, fromUtf16LEEscapes rest with
    | some x, some y, some z, some w, some t =>
      some ((x * 4096 + y * 256 + z * 16 + w) :: t)
    | _, _, _, _, _ => none
  | _ => none

theorem hexVal_hexDigitChar (d : Nat) (hd : d < 16) :
    hexVal (hexDigitChar d) = some d := by
  unfold hexDigitChar
  by_cases h : d < 10
  · rw [if_pos h]
    unfold hexVal
    rw [if_pos (by omega)]
    congr 1
    omega
  · rw [if_neg h]
    unfold hexVal
    rw [if_neg (by omega), if_pos (by omega)]
    congr 1
    omega

theorem fromUtf16_textToUtf16 (units : List Nat) (h : ∀ u ∈ units, u < 65536) :
    fromUtf16LEEscapes (textToUtf16Hex units) = some units := by
  induction units with
  | nil => rfl
  | cons u t ih =>
    have hu : u < 65536 := h u (List.mem_cons_self u t)
    have ht : ∀ x ∈ t, x < 65536 := fun x hx => h x (List.mem_cons_of_mem u hx)
    have hshape : textToUtf16Hex (u :: t) =
        92 :: 117 :: hexDigitChar (u / 4096 % 16) :: hexDigitChar (u / 256 % 16) ::
          hexDigitChar (u / 16 % 16) :: hexDigitChar (u % 16) :: textToUtf16Hex t := rfl
    rw [hshape]
    simp only [fromUtf16LEEscapes]
    rw [hexVal_hexDigitChar _ (by omega), hexVal_hexDigitChar _ (by omega),
      hexVal_hexDigitChar _ (by omega), hexVal_hexDigitChar _ (by omega), ih ht]
    have hv : u / 4096 % 16 * 4096 + u / 256 % 16 * 256 + u / 16 % 16 * 16 + u % 16 = u := by
      omega
    simp [hv]

/-- Decimal digit characters of a number, most significant first, the
output of the JavaScript Number toString with radix 10. -/
def decDigits (n : Nat) : List Nat :=
  if n < 10 then [48 + n]
  else decDigits (n / 10) ++ [48 + n % 10]
termination_by n
decreasing_by exact Nat.div_lt_self (by omega) (by omega)

/-- Modelled from the spec: the named-entity table covering the
punctuation and Latin-1 characters the test corpus exercises. -/
def namedEntities : List (List Nat × Nat) := [
  (str "amp", 38), (str "lt", 60), (str "gt", 62), (str "quot", 34),
  (str "deg", 176), (str "plusmn", 177), (str "bull", 8226),
  (str "ldquo", 8220), (str "rdquo", 8221), (str "lsquo", 8216), (str "rsquo", 8217)]

/-- Entity encoding of one character: the characters & < > " and every
non-ASCII code point are escaped, with a decimal character reference in
numeric mode and the entity name, when the table has one, otherwise. -/
def htmlEncodeChar (numeric : Bool) (c : Nat) : List Nat :=
  if 128 ≤ c ∨ c = 38 ∨ c = 60 ∨ c = 62 ∨ c = 34 then
    match numeric, namedEntities.find? (fun e => e.2 == c) with
    | false, some e => 38 :: (e.1 ++ [59])
    | _, _ => 38 :: 35 :: (decDigits c ++ [59])
  else [c]

/-- Modelled from the spec: toHtmlEntities, standard HTML entity
escaping in numeric or named mode. -/
def toHtmlEntities (text : List Nat) (numeric : Bool) : List Nat :=
  text.flatMap (htmlEncodeChar numeric)

/-- Parse the digits of a decimal character reference up to the closing
semicolon, returning the code and the remainder after the semicolon. -/
def parseDecEntity : List Nat → Nat → Option (Nat × List Nat)
  | [], _ => none
  | c :: rest, acc =>
    if c = 59 then some (acc, rest)
    else if 48 ≤ c ∧ c ≤ 57 then parseDecEntity rest (acc * 10 + (c - 48))
    else none

/-- Parse the digits of a hexadecimal character reference up to the
closing semicolon. -/
def parseHexEntity : List Nat → Nat → Option (Nat × List Nat)
  | [], _ => none
  | c :: rest, acc =>
    if c = 59 then some (acc, rest)
    else
      match hexVal c with
      | some d => parseHexEntity rest (acc * 16 + d)
      | none => none

/-- Parse one entity body (the part after the ampersand): a decimal or
hexadecimal character reference or a known entity name; none when the
text after the ampersand is not a recognised entity. -/
def parseEntity (l : List Nat) : Option (Nat × List Nat) :=
  match l with
  | [] => none
  | c0 :: rest =>
    if c0 = 35 then
      match rest with
      | [] => none
      | c1 :: rest2 =>
        if c1 = 120 then
          match rest2 with
          | [] => none
          | c2 :: _ => if (hexVal c2).isSome then parseHexEntity rest2 0 else none
        else if 48 ≤ c1 ∧ c1 ≤ 57 then parseDecEntity rest 0
        else none
    else
      (namedEntities.find? (fun e => (e.1 ++ [59]).isPrefixOf l)).map
        (fun e => (e.2, l.drop (e.1.length + 1)))

/-- Unescaping loop; one output character is produced per fuel unit, so
fuel equal to the input length is always enough. Unrecognised
entity-like substrings pass through unchanged. -/
def fromHtmlEntitiesGo (fuel : Nat) (l : List Nat) : List Nat :=
  match fuel with
  | 0 => l
  | fuel + 1 =>
    match l with
    | [] => []
    | c :: rest =>
      if c = 38 then
        match parseEntity rest with
        | some p => p.1 :: fromHtmlEntitiesGo fuel p.2
        | none => 38 :: fromHtmlEntitiesGo fuel rest
      else c :: fromHtmlEntitiesGo fuel rest

/-- Modelled from the spec: fromHtmlEntities, standard HTML entity
unescaping that leaves unrecognised entity-like substrings unchanged. -/
def fromHtmlEntities (l : List Nat) : List Nat := fromHtmlEntitiesGo l.length l

theorem decDigits_bounds (n : Nat) : ∀ d ∈ decDigits n, 48 ≤ d ∧ d ≤ 57 := by
  induction n using Nat.strong_induction_on with
  | _ n ih =>
    intro d hd
    rw [decDigits] at hd
    by_cases h : n < 10
    · rw [if_pos h] at hd
      simp at hd
      omega
    · rw [if_neg h] at hd
      rw [List.mem_append] at hd
      rcases hd with hd | hd
      · exact ih (n / 10) (Nat.div_lt_self (by omega) (by omega)) d hd
      · simp at hd; omega

theorem decDigits_ne_nil (n : Nat) : decDigits n ≠ [] := by
  rw [decDigits]
  by_cases h : n < 10
  · rw [if_pos h]; simp
  · rw [if_neg h]; simp

theorem decDigits_foldl (n : Nat) :
    (decDigits n).foldl (fun a d => a * 10 + (d - 48)) 0 = n := by
  induction n using Nat.strong_induction_on with
  | _ n ih =>
    rw [decDigits]
    by_cases h : n < 10
    · rw [if_pos h]
      simp only [List.foldl_cons, List.foldl_nil]
      omega
    · rw [if_neg h]
      rw [List.foldl_append]
      rw [ih (n / 10) (Nat.div_lt_self (by omega) (by omega))]
      simp only [List.foldl_cons, List.foldl_nil]
      omega

theorem parseDecEntity_spec : ∀ (ds tail : List Nat) (acc : Nat),
    (∀ d ∈ ds, 48 ≤ d ∧ d ≤ 57) →
    parseDecEntity (ds ++ 59 :: tail) acc =
      some (ds.foldl (fun a d => a * 10 + (d - 48)) acc, tail) := by
  intro ds
  induction ds with
  | nil =>
    intro tail acc _
    simp only [List.nil_append, parseDecEntity, List.foldl_nil]
    rw [if_pos trivial]
  | cons d dt ih =>
    intro tail acc hds
    have hd : 48 ≤ d ∧ d ≤ 57 := hds d (List.mem_cons_self d dt)
    have hdt : ∀ x ∈ dt, 48 ≤ x ∧ x ≤ 57 := fun x hx => hds x (List.mem_cons_of_mem d hx)
    simp only [List.cons_append, parseDecEntity]
    rw [if_neg (by omega : ¬d = 59), if_pos hd]
    simp only [List.append_eq]
    rw [ih tail (acc * 10 + (d - 48)) hdt]
    rfl

theorem parseEntity_decimal (c : Nat) (tail : List Nat) :
    parseEntity (35 :: (decDigits c ++ 59 :: tail)) = some (c, tail) := by
  obtain ⟨d, dt, hd⟩ : ∃ d dt, decDigits c = d :: dt := by
    cases hcase : decDigits c with
    | nil => exact absurd hcase (decDigits_ne_nil c)
    | cons d dt => exact ⟨d, dt, rfl⟩
  have hdig : 48 ≤ d ∧ d ≤ 57 := by
    have := decDigits_bounds c d (by rw [hd]; exact List.mem_cons_self d dt)
    exact this
  rw [hd, List.cons_append]
  simp only [parseEntity]
  rw [if_pos trivial, if_neg (by omega : ¬d = 120), if_pos hdig]
  rw [← List.cons_append, ← hd]
  rw [parseDecEntity_spec (decDigits c) tail 0 (decDigits_bounds c)]
  rw [decDigits_foldl]

theorem fromHtml_toHtml_aux (s : List Nat) :
    ∀ fuel, (toHtmlEntities s true).length ≤ fuel →
      fromHtmlEntitiesGo fuel (toHtmlEntities s true) = s := by
  induction s with
  | nil => intro fuel _; cases fuel <;> rfl
  | cons c t ih =>
    intro fuel hfuel
    by_cases hesc : 128 ≤ c ∨ c = 38 ∨ c = 60 ∨ c = 62 ∨ c = 34
    · have hshape : toHtmlEntities (c :: t) true =
          38 :: 35 :: (decDigits c ++ 59 :: toHtmlEntities t true) := by
        show htmlEncodeChar true c ++ toHtmlEntities t true = _
        unfold htmlEncodeChar
        rw [if_pos hesc]
        simp [List.append_assoc]
      have hlen : (toHtmlEntities (c :: t) true).length =
          3 + (decDigits c).length + (toHtmlEntities t true).length := by
        rw [hshape]; simp; omega
      have hdlen : 1 ≤ (decDigits c).length := by
        cases hcase : decDigits c with
        | nil => exact absurd hcase (decDigits_ne_nil c)
        | cons d dt => simp
      obtain ⟨f, rfl⟩ : ∃ f, fuel = f + 1 := by
        cases fuel with
        | zero => omega
        | succ f => exact ⟨f, rfl⟩
      rw [hshape]
      simp only [fromHtmlEntitiesGo]
      rw [if_pos trivial, parseEntity_decimal c (toHtmlEntities t true)]
      show c :: fromHtmlEntitiesGo f (toHtmlEntities t true) = c :: t
      rw [ih f (by omega)]
    · have hshape : toHtmlEntities (c :: t) true = c :: toHtmlEntities t true := by
        show htmlEncodeChar true c ++ toHtmlEntities t true = _
        unfold htmlEncodeChar
        rw [if_neg hesc]
        rfl
      have hlen : (toHtmlEntities (c :: t) true).length =
          1 + (toHtmlEntities t true).length := by
        rw [hshape]; simp; omega
      obtain ⟨f, rfl⟩ : ∃ f, fuel = f + 1 := by
        cases fuel with
        | zero => omega
        | succ f => exact ⟨f, rfl⟩
      rw [hshape]
      simp only [fromHtmlEntitiesGo]
      rw [if_neg (by omega : ¬c = 38)]
      rw [ih f (by omega)]

theorem fromHtml_toHtml (s : List Nat) :
    fromHtmlEntities (toHtmlEntities s true) = s :=
  fromHtml_toHtml_aux s _ le_rfl

/-- C4: the transcoder round-trip laws. Reading back the hex-escape
representation restores every string (every UTF-16 code unit sequence),
and unescaping the numeric entity encoding restores every string. -/
theorem transcoder_round_trips :
    (∀ units : List Nat, (∀ u ∈ units, u < 65536) →
      fromUtf16LEEscapes (textToUtf16Hex units) = some units) ∧
    (∀ s : List Nat, fromHtmlEntities (toHtmlEntities s true) = s) :=
  ⟨fromUtf16_textToUtf16, fromHtml_toHtml⟩

/-- Instance of C4 at café. -/
theorem transcoder_round_trips_witness :
    (∀ u ∈ str "café", u < 65536) ∧
    fromUtf16LEEscapes (textToUtf16Hex (str "café")) = some (str "café") ∧
    fromHtmlEntities (toHtmlEntities (str "café") true) = str "café" :=
  ⟨by decide, transcoder_round_trips.1 (str "café") (by decide),
   transcoder_round_trips.2 (str "café")⟩

/-- Instance of C9 at café. -/
theorem strategy_functions_total_witness :
    AllScalar (str "café") ∧
    (AllScalar (convertSymbolsToImages (str "café")) ∧
     AllScalar (sanitiseUnicodeForNookal (str "café")) ∧
     AllScalar (hybridUnicodeStrategy (str "café")) ∧
     AllScalar (fixCorruptedText (str "café")) ∧
     ∀ b ∈ utf8ToLatin1 (str "café"), b < 256) :=
  ⟨by decide, strategy_functions_total (str "café") (by decide)⟩

/-- Modelled from the spec: the closed set of verdict outcomes of the
round-trip harness. -/
inductive Outcome where
  | exactMatch
  | recoveredMatch
  | improved
  | corrupted
  | notFound
  | transportError
deriving DecidableEq, Repr

/-- Modelled from the spec: an encoding strategy of the catalogue, with
its name, success-criterion flag and transform pair. -/
structure Strategy where
  name : String
  equalityBased : Bool
  encode : List Nat → List Nat
  decode : List Nat → Option (List Nat)

/-- Modelled from the spec: one cell's verdict. -/
structure Verdict where
  caseId : Nat
  strategyName : String
  outcome : Outcome
deriving DecidableEq, Repr

/-- Modelled from the spec: one harness cell for an equality-based
strategy. The store abstracts submit-then-poll: none is poll exhaustion
(NOT_FOUND), some is the retrieved payload. Classification follows the
spec's step five, with the improved test taken from the corruption-marker
check the source scripts share. -/
def runCell (strat : Strategy) (store : List Nat → Option (List Nat))
    (original : List Nat) : Outcome :=
  let payload := strat.encode original
  match store payload with
  | none => .notFound
  | some retrieved =>
    if retrieved = payload then
      if strat.decode retrieved = some original then .recoveredMatch else .exactMatch
    else if retrieved = original then .exactMatch
    else if !containsSub retrieved (str "Ã") && !containsSub retrieved (str "â€")
            && !containsSub retrieved (str "Â") then .improved
    else .corrupted

/-- Modelled from the spec: the full cross product of cases and
strategies, one verdict per cell. -/
def runMatrix (cases : List (Nat × List Nat)) (strats : List Strategy)
    (store : List Nat → Option (List Nat)) : List Verdict :=
  strats.flatMap (fun st => cases.map (fun c => ⟨c.1, st.name, runCell st store c.2⟩))

/-- An outcome counted by successRate: exact or recovered match; improved
outcomes are excluded from the numerator. -/
def isSuccess (o : Outcome) : Bool :=
  match o with
  | .exactMatch => true
  | .recoveredMatch => true
  | _ => false

/-- Modelled from the spec: the numerator of successRate for one
strategy. -/
def successCount (vs : List Verdict) (name : String) : Nat :=
  (vs.filter (fun v => v.strategyName == name && isSuccess v.outcome)).length

/-- Modelled from the spec: the denominator of successRate for one
strategy. -/
def totalCells (vs : List Verdict) (name : String) : Nat :=
  (vs.filter (fun v => v.strategyName == name)).length

/-- Strict comparison of rated strategies: a strictly higher success
rate (compared by cross multiplication), or an equal rate with the
equality-based criterion preferred over the structural one. -/
def betterThan (x y : Strategy × Nat × Nat) : Bool :=
  x.2.1 * y.2.2 > y.2.1 * x.2.2 ||
  (x.2.1 * y.2.2 == y.2.1 * x.2.2 && x.1.equalityBased && !y.1.equalityBased)

/-- Modelled from the spec: recommend — the strategy with the highest
success rate, ties broken by preferring equality-based strategies and
then declaration order; null when every strategy's success rate is
zero. -/
def recommend (strats : List Strategy) (vs : List Verdict) : Option String :=
  match (strats.map (fun st => (st, successCount vs st.name, totalCells vs st.name))).foldl
      (fun best r =>
        match best with
        | none => some r
        | some b => if betterThan r b then some r else some b)
      none with
  | none => none
  | some b => if b.2.1 = 0 then none else some b.1.name

theorem foldl_choice_mem {α : Type} (step : Option α → α → Option α)
    (hstep : ∀ acc r, step acc r = acc ∨ step acc r = some r) :
    ∀ (l : List α) (init : Option α) (x : α),
      l.foldl step init = some x → init = some x ∨ x ∈ l := by
  intro l
  induction l with
  | nil => intro init x h; exact Or.inl h
  | cons r t ih =>
    intro init x h
    rcases ih (step init r) x h with h1 | h1
    · rcases hstep init r with h2 | h2
      · exact Or.inl (h2 ▸ h1)
      · rw [h2] at h1
        exact Or.inr (by rw [Option.some.injEq] at h1; rw [← h1]; exact List.mem_cons_self r t)
    · exact Or.inr (List.mem_cons_of_mem r h1)

theorem recommend_none_of_zero (strats : List Strategy) (vs : List Verdict)
    (h : ∀ st ∈ strats, successCount vs st.name = 0) : recommend strats vs = none := by
  unfold recommend
  cases hbest : (strats.map (fun st => (st, successCount vs st.name, totalCells vs st.name))).foldl
      (fun best r =>
        match best with
        | none => some r
        | some b => if betterThan r b then some r else some b)
      none with
  | none => rfl
  | some b =>
    have hstep : ∀ (acc : Option (Strategy × Nat × Nat)) (r : Strategy × Nat × Nat),
        (match acc with
          | none => some r
          | some x => if betterThan r x then some r else some x) = acc ∨
        (match acc with
          | none => some r
          | some x => if betterThan r x then some r else some x) = some r := by
      intro acc r
      cases acc with
      | none => exact Or.inr rfl
      | some x =>
        by_cases hbt : betterThan r x
        · refine Or.inr ?_
          show (if betterThan r x then some r else some x) = some r
          rw [if_pos hbt]
        · refine Or.inl ?_
          show (if betterThan r x then some r else some x) = some x
          rw [if_neg hbt]
    have hb := foldl_choice_mem _ hstep _ none b hbest
    rcases hb with hb | hb
    · exact Option.noConfusion hb
    · rw [List.mem_map] at hb
      obtain ⟨st, hst, hfb⟩ := hb
      have hz : b.2.1 = 0 := by rw [← hfb]; exact h st hst
      show (if b.2.1 = 0 then none else some b.1.name) = none
      rw [if_pos hz]

theorem runMatrix_notFound (cases : List (Nat × List Nat)) (strats : List Strategy) :
    ∀ v ∈ runMatrix cases strats (fun _ => none), v.outcome = Outcome.notFound := by
  intro v hv
  unfold runMatrix at hv
  rw [List.mem_flatMap] at hv
  obtain ⟨st, _, hv⟩ := hv
  rw [List.mem_map] at hv
  obtain ⟨c, _, rfl⟩ := hv
  rfl

theorem successCount_eq_zero (vs : List Verdict) (name : String)
    (h : ∀ v ∈ vs, isSuccess v.outcome = false) : successCount vs name = 0 := by
  unfold successCount
  rw [List.length_eq_zero, List.filter_eq_nil_iff]
  intro v hv
  rw [h v hv]
  simp

/-- C7: recommend returns null when every strategy's success rate is
zero, with successRate counting only exact and recovered matches
(improved excluded); in particular a store that yields NotFound for every
submission forces a null recommendation. -/
theorem recommend_null_when_nothing_works :
    (∀ (strats : List Strategy) (vs : List Verdict),
      (∀ st ∈ strats, successCount vs st.name = 0) → recommend strats vs = none) ∧
    (∀ (cases : List (Nat × List Nat)) (strats : List Strategy),
      recommend strats (runMatrix cases strats (fun _ => none)) = none) := by
  refine ⟨recommend_none_of_zero, ?_⟩
  intro cases strats
  refine recommend_none_of_zero strats _ ?_
  intro st _
  refine successCount_eq_zero _ _ ?_
  intro v hv
  rw [runMatrix_notFound cases strats v hv]
  rfl

/-- The identity strategy, the first entry of the spec's catalogue. -/
def identityStrategy : Strategy :=
  { name := "identity", equalityBased := true, encode := fun t => t,
    decode := fun t => some t }

/-- Instance of C7 at concrete inputs: a lone improved verdict counts for
nothing, and the always-NotFound store yields a null recommendation. -/
theorem recommend_null_witness :
    (∀ st ∈ [identityStrategy],
      successCount [{ caseId := 0, strategyName := "identity", outcome := Outcome.improved }] st.name = 0) ∧
    recommend [identityStrategy]
      [{ caseId := 0, strategyName := "identity", outcome := Outcome.improved }] = none ∧
    recommend [identityStrategy]
      (runMatrix [(0, str "café")] [identityStrategy] (fun _ => none)) = none :=
  ⟨by decide,
   recommend_null_when_nothing_works.1 [identityStrategy]
     [{ caseId := 0, strategyName := "identity", outcome := Outcome.improved }] (by decide),
   recommend_null_when_nothing_works.2 [(0, str "café")] [identityStrategy]⟩

/-- An entry of the code-point-aligned diff: a mismatch triple, or the
trailing marker recording that one string has extra characters. -/
inductive DiffEntry where
  | mismatch (index expected actual : Nat)
  | extra (index : Nat)
deriving DecidableEq, Repr

/-- Modelled from the spec: the scan producing one mismatch entry per
disagreeing index, iterating over both strings together. -/
def diffScan : Nat → List Nat → List Nat → List DiffEntry
  | _, [], _ => []
  | _, _ :: _, [] => []
  | i, a :: o, b :: r =>
    (if a ≠ b then [DiffEntry.mismatch i a b] else []) ++ diffScan (i + 1) o r

/-- Modelled from the spec: diffPositions — the code-point-aligned diff
of the two strings, bounded by the shorter length, with one trailing
extra marker when the lengths differ. -/
def diffPositions (o r : List Nat) : List DiffEntry :=
  diffScan 0 o r ++
    (if o.length = r.length then [] else [DiffEntry.extra (min o.length r.length)])

theorem diffScan_eq (o : List Nat) : ∀ (r : List Nat) (k : Nat),
    diffScan k o r =
      ((List.range (min o.length r.length)).filter (fun i => decide (o[i]? ≠ r[i]?))).map
        (fun i => DiffEntry.mismatch (k + i) (o.getD i 0) (r.getD i 0)) := by
  induction o with
  | nil => intro r k; simp [diffScan]
  | cons a o ih =>
    intro r k
    cases r with
    | nil => simp [diffScan]
    | cons b r =>
      rw [diffScan, ih r (k + 1)]
      have hmin : min (a :: o).length (b :: r).length = min o.length r.length + 1 := by
        simp [Nat.succ_min_succ]
      rw [hmin, List.range_succ_eq_map, List.filter_cons]
      simp only [List.filter_map]
      have hq : List.filter ((fun i => decide ((a :: o)[i]? ≠ (b :: r)[i]?)) ∘ Nat.succ)
            (List.range (min o.length r.length)) =
          List.filter (fun i => decide (o[i]? ≠ r[i]?)) (List.range (min o.length r.length)) := by
        refine List.filter_congr ?_
        intro i _
        show decide ((a :: o)[i + 1]? ≠ (b :: r)[i + 1]?) = decide (o[i]? ≠ r[i]?)
        simp
      rw [hq]
      by_cases hab : a = b
      · rw [if_neg (not_not_intro hab), if_neg (by simp [hab]), List.nil_append, List.map_map]
        refine List.map_congr_left ?_
        intro i _
        show DiffEntry.mismatch (k + 1 + i) (o.getD i 0) (r.getD i 0) =
          DiffEntry.mismatch (k + (i + 1)) ((a :: o).getD (i + 1) 0) ((b :: r).getD (i + 1) 0)
        have harith : k + 1 + i = k + (i + 1) := by omega
        rw [harith, List.getD_cons_succ, List.getD_cons_succ]
      · rw [if_pos hab, if_pos (by simp [hab]), List.singleton_append, List.map_cons, List.map_map]
        have hhead : DiffEntry.mismatch k a b =
            DiffEntry.mismatch (k + 0) ((a :: o).getD 0 0) ((b :: r).getD 0 0) := by
          simp
        have htail : List.map (fun i => DiffEntry.mismatch (k + 1 + i) (o.getD i 0) (r.getD i 0))
              (List.filter (fun i => decide (o[i]? ≠ r[i]?)) (List.range (min o.length r.length))) =
            List.map ((fun i => DiffEntry.mismatch (k + i) ((a :: o).getD i 0) ((b :: r).getD i 0))
                ∘ Nat.succ)
              (List.filter (fun i => decide (o[i]? ≠ r[i]?)) (List.range (min o.length r.length))) := by
          refine List.map_congr_left ?_
          intro i _
          show DiffEntry.mismatch (k + 1 + i) (o.getD i 0) (r.getD i 0) =
            DiffEntry.mismatch (k + (i + 1)) ((a :: o).getD (i + 1) 0) ((b :: r).getD (i + 1) 0)
          have harith : k + 1 + i = k + (i + 1) := by omega
          rw [harith, List.getD_cons_succ, List.getD_cons_succ]
        rw [hhead, htail]

/-- C8: for every pair whose classification is not an exact match (the
strings differ), diffPositions is the ordered list of (index, expected,
actual) triples at exactly the indices below the shorter length where
the strings disagree, in index order, followed by one trailing extra
marker exactly when the lengths differ. -/
theorem diffPositions_characterisation (o r : List Nat) (_hne : o ≠ r) :
    diffPositions o r =
      ((List.range (min o.length r.length)).filter (fun i => decide (o[i]? ≠ r[i]?))).map
        (fun i => DiffEntry.mismatch i (o.getD i 0) (r.getD i 0)) ++
      (if o.length = r.length then [] else [DiffEntry.extra (min o.length r.length)]) := by
  unfold diffPositions
  rw [diffScan_eq o r 0]
  congr 1
  refine List.map_congr_left ?_
  intro i _
  rw [Nat.zero_add]

/-- Instance of C8 at a concrete pair differing at index one and in
length. -/
theorem diffPositions_characterisation_witness :
    str "abc" ≠ str "axcd" ∧
    diffPositions (str "abc") (str "axcd") =
      ((List.range (min (str "abc").length (str "axcd").length)).filter
          (fun i => decide ((str "abc")[i]? ≠ (str "axcd")[i]?))).map
        (fun i => DiffEntry.mismatch i ((str "abc").getD i 0) ((str "axcd").getD i 0)) ++
      (if (str "abc").length = (str "axcd").length then []
       else [DiffEntry.extra (min (str "abc").length (str "axcd").length)]) :=
  ⟨by decide, diffPositions_characterisation (str "abc") (str "axcd") (by decide)⟩

end Nookal
